import Mathlib

/-!
Verification of the OneNote CUPS backend (`src/cups-backend/onenote_backend.c`)
against its natural-language specification.

The C program is embedded shallowly:

* File contents are byte lists (`List Nat`); the filesystem is a partial map
  from path strings to contents.  Directories, ownership and permission bits
  are not part of the map: `chmod` results are discarded by the C code
  (`(void)chmod`) and `chown` failures only produce a log line, which we model
  in the `warnings` field of a run's result.
* Each fallible system call is driven by an oracle (`Orc`, `CopyOr`): the
  oracle decides whether `mkstemp`, `open`, `getpwnam`, `rename`, `fopen`,
  `chown` … succeed, what `read` returns (a list of non-empty chunks followed
  by either end-of-file or a read error) and how many bytes each `write` call
  accepts (`none` models a write error, `some w` a short write of at most `w`
  bytes).
* `runJob` is the job-mode body of `main` (argument parsing done), `backend`
  adds the argc dispatch.  A run returns its exit status, the final
  filesystem, the trace of filesystem snapshots taken after every
  content-changing system call, and the non-fatal warnings logged.
-/

/-- A filesystem: paths to file contents (bytes).  Directories are implicit. -/
def FS : Type := String → Option (List Nat)

/-- Create or overwrite a file. -/
def upd (fs : FS) (p : String) (v : List Nat) : FS :=
  fun q => if q = p then some v else fs q

/-- Remove a file (`unlink`). -/
def del (fs : FS) (p : String) : FS :=
  fun q => if q = p then none else fs q

theorem upd_same (fs : FS) (p : String) (v : List Nat) : upd fs p v p = some v := by
  simp [upd]

theorem upd_ne (fs : FS) (p q : String) (v : List Nat) (h : q ≠ p) :
    upd fs p v q = fs q := by
  simp [upd, h]

theorem del_same (fs : FS) (p : String) : del fs p p = none := by
  simp [del]

theorem del_ne (fs : FS) (p q : String) (h : q ≠ p) : del fs p q = fs q := by
  simp [del, h]

/-!
## The retrying write loop

`onenote_backend.c` writes each chunk read from the source with

    ssize_t off = 0;
    while (off < n) {
      ssize_t wn = write(fd, buf + off, n - off);
      if (wn < 0) fail;
      off += wn;
    }

`writeChunk sched chunk` runs that inner loop: each element of `sched` is the
result of one `write` call (`none` = error, `some w` = at most `w` bytes
accepted).  It returns the bytes that reached the file and, on success, the
unconsumed schedule.  An exhausted schedule with bytes still pending also
counts as a failed run (the real loop would simply keep calling `write`).
-/

def writeChunk : List (Option Nat) → List Nat → List Nat × Option (List (Option Nat))
  | sched, [] => ([], some sched)
  | [], _ :: _ => ([], none)
  | none :: _, _ :: _ => ([], none)
  | some w :: sched, c :: cs =>
      let k := min w (c :: cs).length
      let r := writeChunk sched ((c :: cs).drop k)
      ((c :: cs).take k ++ r.1, r.2)

/-- The outer capture loop of `main` (and the copy loop of `copy_file`):
write the successive `read` chunks with the retrying inner loop. -/
def pump : List (List Nat) → List (Option Nat) → List Nat × Option (List (Option Nat))
  | [], sched => ([], some sched)
  | c :: cs, sched =>
      let r1 := writeChunk sched c
      match r1.2 with
      | none => (r1.1, none)
      | some sched' =>
          let r2 := pump cs sched'
          (r1.1 ++ r2.1, r2.2)

theorem writeChunk_ok : ∀ (sched : List (Option Nat)) (chunk out : List Nat)
    (rest : List (Option Nat)), writeChunk sched chunk = (out, some rest) → out = chunk
  | sched, [], out, rest => by
      intro h
      simp only [writeChunk] at h
      injection h with h1 h2
      exact h1.symm
  | [], _ :: _, out, rest => by
      intro h
      simp only [writeChunk] at h
      injection h with h1 h2
      exact Option.noConfusion h2
  | none :: _, _ :: _, out, rest => by
      intro h
      simp only [writeChunk] at h
      injection h with h1 h2
      exact Option.noConfusion h2
  | some w :: sched, c :: cs, out, rest => by
      intro h
      simp only [writeChunk] at h
      injection h with h1 h2
      have hpair : writeChunk sched ((c :: cs).drop (min w (c :: cs).length)) =
          ((writeChunk sched ((c :: cs).drop (min w (c :: cs).length))).1, some rest) := by
        rw [← h2]
      have ih := writeChunk_ok sched ((c :: cs).drop (min w (c :: cs).length))
        (writeChunk sched ((c :: cs).drop (min w (c :: cs).length))).1 rest hpair
      rw [← h1, ih, List.take_append_drop]

theorem pump_ok : ∀ (chunks : List (List Nat)) (sched : List (Option Nat))
    (out : List Nat) (rest : List (Option Nat)),
    pump chunks sched = (out, some rest) → out = chunks.flatten
  | [], sched, out, rest => by
      intro h
      simp only [pump] at h
      injection h with h1 h2
      simp [← h1]
  | c :: cs, sched, out, rest => by
      intro h
      simp only [pump] at h
      cases hw : (writeChunk sched c).2 with
      | none =>
          rw [hw] at h
          injection h with h1 h2
          exact Option.noConfusion h2
      | some sched' =>
          rw [hw] at h
          injection h with h1 h2
          have e1 : (writeChunk sched c).1 = c :=
            writeChunk_ok sched c _ sched' (by rw [← hw])
          have e2 : (pump cs sched').1 = cs.flatten := by
            refine pump_ok cs sched' _ rest ?_
            rw [← h2]
          simp [← h1, e1, e2]

/-!
## `copy_file`

The fallback copy used when `rename` fails.  The C function:

* `open(src, O_RDONLY)` — fails iff the source does not exist here;
* `open(dst, O_WRONLY|O_CREAT|O_TRUNC, mode)` — oracle `openDstOk`; on
  success the destination is created (or truncated) immediately;
* the read/write loop with an 8192-byte buffer; `readErrAfter = some k`
  models a read error after `k` successful reads, `none` means reads run to
  end-of-file;
* returns 0 only when the loop ended at end-of-file with every write whole.
-/

/-- Split a byte list into the successive chunks an 8192-byte read buffer
delivers.  The `fuel` argument (instantiated with the list length, which
bounds the number of reads) only makes the recursion structural. -/
def chunksOfAux : Nat → List Nat → List (List Nat)
  | _, [] => []
  | 0, _ :: _ => []
  | fuel + 1, x :: xs => (x :: xs).take 8192 :: chunksOfAux fuel ((x :: xs).drop 8192)

def chunksOf (l : List Nat) : List (List Nat) := chunksOfAux l.length l

theorem chunksOfAux_flatten : ∀ (fuel : Nat) (l : List Nat), l.length ≤ fuel →
    (chunksOfAux fuel l).flatten = l
  | _, [], _ => by simp [chunksOfAux]
  | 0, x :: xs, h => by simp at h
  | fuel + 1, x :: xs, h => by
      have hlen : ((x :: xs).drop 8192).length ≤ fuel := by
        rw [List.length_drop]
        simp only [List.length_cons] at h ⊢
        omega
      have ih := chunksOfAux_flatten fuel ((x :: xs).drop 8192) hlen
      simp only [chunksOfAux, List.flatten_cons, ih, List.take_append_drop]

theorem chunksOf_flatten (l : List Nat) : (chunksOf l).flatten = l :=
  chunksOfAux_flatten l.length l (Nat.le_refl _)

/-- Oracle for one `copy_file` call. -/
structure CopyOr where
  openDstOk : Bool
  readErrAfter : Option Nat
  wsched : List (Option Nat)

/-- `copy_file(src, dst, mode)` from the C source, over the filesystem model.
Returns the filesystem afterwards and whether the copy returned 0. -/
def copy_file (fs : FS) (src dst : String) (o : CopyOr) : FS × Bool :=
  match fs src with
  | none => (fs, false)
  | some data =>
      if o.openDstOk then
        match o.readErrAfter with
        | none =>
            let r := pump (chunksOf data) o.wsched
            (upd fs dst r.1, r.2.isSome)
        | some k =>
            let r := pump ((chunksOf data).take k) o.wsched
            (upd fs dst r.1, false)
      else (fs, false)

/-!
## Format sniffing

`file_starts_with` reads up to 16 bytes from the file and compares the first
`strlen(prefix)` of them; any open/read failure, an empty file or a short
read all yield `false`.  A `none` content models an unreadable file.
-/

def file_starts_with (content : Option (List Nat)) (pre : List Nat) : Bool :=
  match content with
  | none => false
  | some bytes =>
      if (bytes.take 16).length = 0 then false
      else if (bytes.take 16).length < pre.length then false
      else decide ((bytes.take 16).take pre.length = pre)

/-- Bytes of the string constant "%!PS". -/
def psMagic : List Nat := [37, 33, 80, 83]

/-- Bytes of the string constant "%PDF". -/
def pdfMagic : List Nat := [37, 80, 68, 70]

/-- The extension decision in `main`: `ext = "pdf"; if %!PS → "ps"
else if %PDF → "pdf"`. -/
def sniffExt (content : Option (List Nat)) : String :=
  if file_starts_with content psMagic then "ps"
  else if file_starts_with content pdfMagic then "pdf"
  else "pdf"

theorem sniffExt_ps_or_pdf (c : Option (List Nat)) :
    sniffExt c = "ps" ∨ sniffExt c = "pdf" := by
  unfold sniffExt
  split
  · exact Or.inl rfl
  · split <;> exact Or.inr rfl

/-!
## Title escaping

The loop building `escTitle` from `title` in `main`.  The working buffer is
`char escTitle[2048]`; the loop guard is `title[i] != 0 && ei < 2047`, and
each two-character escape additionally checks `ei + 2 >= 2048` and breaks.
-/

/-- One iteration body of the escaping loop, as the full (untruncated)
escape of a single character. -/
def escChar (c : Char) : List Char :=
  if c = '"' ∨ c = '\\' then ['\\', c]
  else if c = '\n' ∨ c = '\r' ∨ c = '\t' then
    ['\\', if c = '\n' then 'n' else if c = '\r' then 'r' else 't']
  else [c]

/-- The untruncated escaping rule of §4.4 of the spec. -/
def escapeFull (l : List Char) : List Char := l.flatMap escChar

/-- The C loop, tracking the output index `ei` against the 2048-byte buffer. -/
def escLoop : List Char → Nat → List Char
  | [], _ => []
  | c :: rest, ei =>
      if ei < 2047 then
        if c = '"' ∨ c = '\\' then
          if ei + 2 ≥ 2048 then []
          else '\\' :: c :: escLoop rest (ei + 2)
        else if c = '\n' ∨ c = '\r' ∨ c = '\t' then
          if ei + 2 ≥ 2048 then []
          else '\\' :: (if c = '\n' then 'n' else if c = '\r' then 'r' else 't') ::
            escLoop rest (ei + 2)
        else c :: escLoop rest (ei + 1)
      else []

/-- The escaped (and possibly truncated) title written into the sidecar. -/
def escT (title : List Char) : List Char := escLoop title 0

/-- The inverse of the escaping rule: `\x` becomes the character `x` encodes. -/
def unescChar (c : Char) : Char :=
  if c = 'n' then '\n' else if c = 'r' then '\r' else if c = 't' then '\t' else c

/-- Unescaping, the inverse direction of §4.4: a backslash and the following
character decode to one character; any other character passes through. -/
def unescape : List Char → List Char
  | [] => []
  | [c] => if c = '\\' then [] else [c]
  | c :: d :: rest =>
      if c = '\\' then unescChar d :: unescape rest
      else c :: unescape (d :: rest)

/-!
## Naming, sidecar serialization
-/

/-- `snprintf(baseName, 256, "job-%s-%ld", job_id, now)`: the formatted name,
silently truncated to the 255 characters that fit the buffer. -/
def mkBaseName (jobId : List Char) (now : Int) : List Char :=
  ("job-".data ++ jobId ++ "-".data ++ (toString now).data).take 255

/-- The sidecar JSON body produced by the `fprintf` in `main`.  Only the
title argument has been escaped; path, user and job id are spliced in
verbatim. -/
def sidecarText (docPath titleEsc user jobId : String) : String :=
  "\x7b\n  \"file\": \"" ++ docPath ++ "\",\n  \"title\": \"" ++ titleEsc ++
    "\",\n  \"user\": \"" ++ user ++ "\",\n  \"job\": \"" ++ jobId ++ "\"\n\x7d\n"

/-- Text file contents as bytes (one codepoint per byte in this model). -/
def strBytes (s : String) : List Nat := s.data.map Char.toNat

/-!
## The job driver

Oracle fields follow the order of the system calls in `main`.  The `TMPDIR`
lookup, `mkstemp`, the optional `open` of the input file, the capture loop,
`getpwnam`, directory creation, `time`, `rename`, the fallback `copy_file`,
`unlink`, the two `chown`s and the `fopen` of the sidecar are all driven by
it.  (`snprintf` truncation of the 1024-byte template path and the
platform-defined `PATH_MAX` buffers is not modelled; the only formatting
buffer whose size the source itself fixes and that the spec discusses is the
256-byte `baseName`, which is.)
-/

structure Orc where
  tmpdirEnv : Option String
  mkstempSuffix : Option String
  openInputOk : Bool
  readChunks : List (List Nat)
  readOk : Bool
  wsched : List (Option Nat)
  getpw : Option (Nat × Nat)
  ensureDirsOk : Bool
  now : Int
  renameOk : Bool
  copyO : CopyOr
  unlinkOk : Bool
  chownDocOk : Bool
  fopenJsonOk : Bool
  chownJsonOk : Bool

/-- Result of a run: exit status, final filesystem, snapshots of the
filesystem after every content-changing call, and warnings logged on the
non-fatal paths. -/
structure RunResult where
  exit : Int
  fs : FS
  trace : List FS
  warnings : List String

def CUPS_BACKEND_OK : Int := 0
def CUPS_BACKEND_FAILED : Int := 1

def incomingDir : String := "/Users/Shared/OneNoteHelper/Incoming"

/-- The temp file path: `tmpdir` from `TMPDIR` (unset or empty falls back to
the fixed default) and the `mkstemp` template with the oracle's suffix in
place of `XXXXXX`. -/
def tmpPathOf (o : Orc) (suffix : String) : String :=
  let tmpdir := match o.tmpdirEnv with
    | some s => if s = "" then "/private/var/spool/cups/tmp" else s
    | none => "/private/var/spool/cups/tmp"
  tmpdir ++ "/onenote-print-" ++ suffix

/-- `open` of an explicit input file fails (C: `file && file[0]` and the
`open` call itself). -/
def inputOpenFails (file : Option String) (o : Orc) : Bool :=
  match file with
  | some f => if f = "" then false else !o.openInputOk
  | none => false

def baseNameOf (jobId : String) (o : Orc) : String :=
  String.mk (mkBaseName jobId.data o.now)

def destDocOf (jobId : String) (o : Orc) (ext : String) : String :=
  incomingDir ++ "/" ++ baseNameOf jobId o ++ "." ++ ext

def destJsonOf (jobId : String) (o : Orc) : String :=
  incomingDir ++ "/" ++ baseNameOf jobId o ++ ".json"

/-- The tail of `main` after the document has been staged at `destDoc`:
`chown`/`chmod` on the document, title escaping, sidecar creation and write,
`chown`/`chmod` on the sidecar.  `tr` is the snapshot trace so far (ending in
`fs`). -/
def finishJob (destDoc destJson user jobId title : String) (o : Orc)
    (tr : List FS) (fs : FS) : RunResult :=
  let w1 := if o.chownDocOk then [] else ["chown failed for document (continuing)"]
  if o.fopenJsonOk then
    let fsA := upd fs destJson []
    let fsB := upd fsA destJson
      (strBytes (sidecarText destDoc (String.mk (escT title.data)) user jobId))
    let w2 := if o.chownJsonOk then [] else ["chown failed for sidecar (continuing)"]
    ⟨CUPS_BACKEND_OK, fsB, tr ++ [fsA, fsB], w1 ++ w2⟩
  else ⟨CUPS_BACKEND_FAILED, fs, tr, w1⟩

/-- Job mode of `main` (arguments already split): temp capture, sniffing,
identity resolution, directory bootstrap, staging, sidecar, ownership. -/
def runJob (jobId user title : String) (file : Option String) (o : Orc)
    (fs0 : FS) : RunResult :=
  match o.mkstempSuffix with
  | none => ⟨CUPS_BACKEND_FAILED, fs0, [fs0], []⟩
  | some suf =>
      let tmpPath := tmpPathOf o suf
      let fs1 := upd fs0 tmpPath []
      if inputOpenFails file o then ⟨CUPS_BACKEND_FAILED, fs1, [fs0, fs1], []⟩
      else
        let pr := pump o.readChunks o.wsched
        let captured := pr.1
        let fs2 := upd fs1 tmpPath captured
        match pr.2 with
        | none => ⟨CUPS_BACKEND_FAILED, fs2, [fs0, fs1, fs2], []⟩
        | some _ =>
            if o.readOk then
              let ext := sniffExt (fs2 tmpPath)
              match o.getpw with
              | none => ⟨CUPS_BACKEND_FAILED, fs2, [fs0, fs1, fs2], []⟩
              | some _ =>
                  if o.ensureDirsOk then
                    let destDoc := destDocOf jobId o ext
                    let destJson := destJsonOf jobId o
                    if o.renameOk then
                      let fs3 := upd (del fs2 tmpPath) destDoc captured
                      finishJob destDoc destJson user jobId title o
                        [fs0, fs1, fs2, fs3] fs3
                    else
                      let cr := copy_file fs2 tmpPath destDoc o.copyO
                      if cr.2 then
                        let fs4 := if o.unlinkOk then del cr.1 tmpPath else cr.1
                        finishJob destDoc destJson user jobId title o
                          [fs0, fs1, fs2, cr.1, fs4] fs4
                      else ⟨CUPS_BACKEND_FAILED, cr.1, [fs0, fs1, fs2, cr.1], []⟩
                  else ⟨CUPS_BACKEND_FAILED, fs2, [fs0, fs1, fs2], []⟩
            else ⟨CUPS_BACKEND_FAILED, fs2, [fs0, fs1, fs2], []⟩

/-- `main`: discovery mode on `argc == 1`, failure on any `argc` other than
6 or 7, otherwise job mode with the positional arguments (`argv[6]`, when
present, is the input file; otherwise the inherited stream is read). -/
def backend (argv : List String) (o : Orc) (fs0 : FS) : RunResult :=
  if argv.length = 1 then ⟨CUPS_BACKEND_OK, fs0, [fs0], []⟩
  else if argv.length = 6 ∨ argv.length = 7 then
    runJob (argv.getD 1 "") (argv.getD 2 "") (argv.getD 3 "")
      (if argv.length = 7 then some (argv.getD 6 "") else none) o fs0
  else ⟨CUPS_BACKEND_FAILED, fs0, [fs0], []⟩

/-- Every snapshot of `tr` maps `p` to `v`. -/
def untouched (p : String) (v : Option (List Nat)) (tr : List FS) : Bool :=
  tr.all fun s => s p == v

/-- In every snapshot, if the sidecar differs from its initial state then the
document file is present. -/
def sidecarAfterDoc (dj dd : String) (fs0 : FS) (tr : List FS) : Bool :=
  tr.all fun s => (s dj == fs0 dj) || (s dd).isSome

/-!
## Helper lemmas about the sniffer
-/

theorem file_starts_with_of_leading (pre b : List Nat) (h0 : 0 < pre.length)
    (h16 : pre.length ≤ 16) : file_starts_with (some (pre ++ b)) pre = true := by
  have hlen : ((pre ++ b).take 16).length = min 16 (pre.length + b.length) := by
    simp [List.length_take]
  have htk : ((pre ++ b).take 16).take pre.length = pre := by
    rw [List.take_take]
    have hm : min pre.length 16 = pre.length := by omega
    rw [hm]
    exact List.take_left pre b
  simp only [file_starts_with]
  rw [if_neg (by rw [hlen]; omega), if_neg (by rw [hlen]; omega), htk]
  simp

theorem file_starts_with_false_of_take_ne (bytes pre : List Nat)
    (h : (bytes.take 16).take pre.length ≠ pre) :
    file_starts_with (some bytes) pre = false := by
  simp only [file_starts_with]
  split
  · rfl
  split
  · rfl
  · exact decide_eq_false h

theorem file_starts_with_imp_leading (bytes pre : List Nat) (h16 : pre.length ≤ 16)
    (h : file_starts_with (some bytes) pre = true) : pre <+: bytes := by
  simp only [file_starts_with] at h
  split at h
  · exact absurd h (by simp)
  split at h
  · exact absurd h (by simp)
  · have h2 := of_decide_eq_true h
    rw [List.take_take] at h2
    have hm : min pre.length 16 = pre.length := by omega
    rw [hm] at h2
    exact List.prefix_iff_eq_take.mpr h2.symm

/-- C3: the format sniffer classifies content starting with the exact 4 bytes
of "%!PS" as extension "ps", content starting with "%PDF" as "pdf", and any
other content — in particular anything not starting with "%!PS" — as well as
an empty file or a read error as the default "pdf". -/
theorem sniffer_classification :
    (∀ b : List Nat, sniffExt (some (psMagic ++ b)) = "ps") ∧
    (∀ b : List Nat, sniffExt (some (pdfMagic ++ b)) = "pdf") ∧
    (∀ b : List Nat, ¬ psMagic <+: b → sniffExt (some b) = "pdf") ∧
    sniffExt none = "pdf" ∧ sniffExt (some []) = "pdf" := by
  refine ⟨?_, ?_, ?_, rfl, rfl⟩
  · intro b
    have h := file_starts_with_of_leading psMagic b (by decide) (by decide)
    simp [sniffExt, h]
  · intro b
    have hps : file_starts_with (some (pdfMagic ++ b)) psMagic = false := by
      apply file_starts_with_false_of_take_ne
      rw [List.take_take]
      have : ((pdfMagic ++ b).take psMagic.length) = pdfMagic := by
        have h4 : psMagic.length = pdfMagic.length := by decide
        rw [h4]
        exact List.take_left pdfMagic b
      intro hcontra
      rw [show min psMagic.length 16 = psMagic.length from by decide] at hcontra
      rw [this] at hcontra
      exact absurd hcontra (by decide)
    simp only [sniffExt, hps, Bool.false_eq_true, if_false]
    exact ite_self "pdf"
  · intro b hb
    have hps : file_starts_with (some b) psMagic = false := by
      cases hfs : file_starts_with (some b) psMagic with
      | false => rfl
      | true => exact absurd (file_starts_with_imp_leading b psMagic (by decide) hfs) hb
    simp only [sniffExt, hps, Bool.false_eq_true, if_false]
    exact ite_self "pdf"

/-- C3 witness: a run of the classification at concrete inputs. -/
theorem sniffer_classification_witness :
    sniffExt (some (psMagic ++ [1, 2])) = "ps" ∧
    sniffExt (some (pdfMagic ++ [1, 2])) = "pdf" ∧
    sniffExt (some [0, 0, 0, 0, 0]) = "pdf" :=
  ⟨sniffer_classification.1 [1, 2], sniffer_classification.2.1 [1, 2],
    sniffer_classification.2.2.1 [0, 0, 0, 0, 0] (by decide)⟩

/-- C2: a successful run of the capture loop writes exactly the bytes read:
the output is the concatenation of the chunks delivered by `read` (no byte
reordered, duplicated or dropped, partial writes retried to completion) and
the total byte counts agree. -/
theorem capture_preserves_bytes (chunks : List (List Nat)) (sched : List (Option Nat))
    (out : List Nat) (rest : List (Option Nat))
    (h : pump chunks sched = (out, some rest)) :
    out = chunks.flatten ∧ out.length = (chunks.map List.length).sum := by
  have h1 := pump_ok chunks sched out rest h
  refine ⟨h1, ?_⟩
  rw [h1]
  exact List.length_flatten _

/-- C2 witness: a capture of two chunks through short writes. -/
theorem capture_preserves_bytes_witness :
    ([1, 2, 3] : List Nat) = ([[1, 2], [3]] : List (List Nat)).flatten ∧
      ([1, 2, 3] : List Nat).length =
        (([[1, 2], [3]] : List (List Nat)).map List.length).sum :=
  capture_preserves_bytes [[1, 2], [3]] [some 1, some 5, some 1] [1, 2, 3] []
    (by decide)

/-!
## Escaping lemmas
-/

theorem escLoop_is_escape_of_front (t : List Char) :
    ∀ ei : Nat, ∃ m, m ≤ t.length ∧ escLoop t ei = escapeFull (t.take m) := by
  induction t with
  | nil => intro ei; exact ⟨0, Nat.le_refl 0, by simp [escLoop, escapeFull]⟩
  | cons c rest ih =>
      intro ei
      by_cases hg : ei < 2047
      · by_cases hq : c = '"' ∨ c = '\\'
        · by_cases hov : ei + 2 ≥ 2048
          · exact ⟨0, Nat.zero_le _, by simp [escLoop, hg, hq, hov, escapeFull]⟩
          · obtain ⟨m, hm, he⟩ := ih (ei + 2)
            refine ⟨m + 1, by simpa using Nat.succ_le_succ hm, ?_⟩
            simp only [escLoop, if_pos hg, if_pos hq, if_neg hov, he,
              List.take_succ_cons, escapeFull, List.flatMap_cons, escChar, if_pos hq]
            rfl
        · by_cases hw : c = '\n' ∨ c = '\r' ∨ c = '\t'
          · by_cases hov : ei + 2 ≥ 2048
            · exact ⟨0, Nat.zero_le _, by simp [escLoop, hg, hq, hw, hov, escapeFull]⟩
            · obtain ⟨m, hm, he⟩ := ih (ei + 2)
              refine ⟨m + 1, by simpa using Nat.succ_le_succ hm, ?_⟩
              simp only [escLoop, if_pos hg, if_neg hq, if_pos hw, if_neg hov, he,
                List.take_succ_cons, escapeFull, List.flatMap_cons, escChar]
              rfl
          · obtain ⟨m, hm, he⟩ := ih (ei + 1)
            refine ⟨m + 1, by simpa using Nat.succ_le_succ hm, ?_⟩
            simp only [escLoop, if_pos hg, if_neg hq, if_neg hw, he,
              List.take_succ_cons, escapeFull, List.flatMap_cons, escChar]
            rfl
      · exact ⟨0, Nat.zero_le _, by simp [escLoop, hg, escapeFull]⟩

theorem unescape_two (d : Char) (l : List Char) :
    unescape ('\\' :: d :: l) = unescChar d :: unescape l := by
  simp [unescape]

theorem unescape_cons_ne (c : Char) (l : List Char) (h : ¬ c = '\\') :
    unescape (c :: l) = c :: unescape l := by
  cases l with
  | nil => simp [unescape, h]
  | cons d rest => simp [unescape, h]

theorem unescape_escapeFull (l : List Char) : unescape (escapeFull l) = l := by
  induction l with
  | nil => rfl
  | cons c rest ih =>
      show unescape (escChar c ++ escapeFull rest) = c :: rest
      by_cases hq : c = '"' ∨ c = '\\'
      · have hesc : escChar c = ['\\', c] := by simp [escChar, hq]
        rw [hesc]
        have hun : unescChar c = c := by
          rcases hq with h | h <;> subst h <;> decide
        rw [List.cons_append, List.cons_append, List.nil_append,
          unescape_two c, hun, ih]
      · by_cases hw : c = '\n' ∨ c = '\r' ∨ c = '\t'
        · have hesc : escChar c =
              ['\\', if c = '\n' then 'n' else if c = '\r' then 'r' else 't'] := by
            simp [escChar, hq, hw]
          rw [hesc]
          rcases hw with h | h | h <;> subst h <;>
            rw [List.cons_append, List.cons_append, List.nil_append] <;>
            rw [unescape_two] <;> simp [unescChar, ih]
        · have hesc : escChar c = [c] := by simp [escChar, hq, hw]
          have hnb : ¬ c = '\\' := fun h => hq (Or.inr h)
          rw [hesc, List.cons_append, List.nil_append, unescape_cons_ne c _ hnb, ih]

/-- C4: the escaped title written into the sidecar is the full escape of some
prefix of the title (truncation never splits an escape sequence, so the
output is a validly escaped string), and applying the inverse of the escaping
rule to it recovers exactly that prefix — the original title up to the
truncation boundary. -/
theorem title_escape_roundtrip (title : List Char) :
    ∃ m, m ≤ title.length ∧ escT title = escapeFull (title.take m) ∧
      unescape (escT title) = title.take m := by
  obtain ⟨m, hm, he⟩ := escLoop_is_escape_of_front title 0
  exact ⟨m, hm, he, by unfold escT; rw [he, unescape_escapeFull]⟩

/-- C6: zero-argument invocations (argc 1: only the program name) succeed
with the filesystem untouched, and invocations whose argument count is
neither zero nor five nor six (argc not 1, 6 or 7) fail with the filesystem
untouched; in both cases the trace shows no intermediate mutation either. -/
theorem argc_dispatch (argv : List String) (o : Orc) (fs0 : FS) :
    (argv.length = 1 →
      backend argv o fs0 = ⟨CUPS_BACKEND_OK, fs0, [fs0], []⟩) ∧
    (argv.length ≠ 1 → argv.length ≠ 6 → argv.length ≠ 7 →
      backend argv o fs0 = ⟨CUPS_BACKEND_FAILED, fs0, [fs0], []⟩) := by
  constructor
  · intro h
    simp [backend, h]
  · intro h1 h6 h7
    simp [backend, h1, h6, h7]

/-- The empty filesystem, used by witness runs. -/
def emptyFS : FS := fun _ => none

/-- An all-successful oracle, used by witness runs: `%PDF-` on stdin, one
whole write, user resolving to uid 501 / gid 20, timestamp 0. -/
def baseOrc : Orc :=
  ⟨none, some "AB", true, [[37, 80, 68, 70, 45]], true, [some 8192],
    some (501, 20), true, 0, true, ⟨true, none, [some 8192]⟩, true, true,
    true, true⟩

/-- C6 witness: the dispatch at a zero-argument and at a three-argument
invocation. -/
theorem argc_dispatch_witness :
    backend ["onenote"] baseOrc emptyFS = ⟨CUPS_BACKEND_OK, emptyFS, [emptyFS], []⟩ ∧
    backend ["onenote", "1", "u", "t"] baseOrc emptyFS =
      ⟨CUPS_BACKEND_FAILED, emptyFS, [emptyFS], []⟩ :=
  ⟨(argc_dispatch ["onenote"] baseOrc emptyFS).1 rfl,
    (argc_dispatch ["onenote", "1", "u", "t"] baseOrc emptyFS).2
      (by decide) (by decide) (by decide)⟩

/-!
## Base-name uniqueness (C9)
-/

set_option maxRecDepth 100000 in
/-- C9 counterexample: two distinct job identifiers (252 and 253 letters
long) whose formatted base names both overflow the 256-byte `baseName`
buffer; `snprintf` truncates both to the same 255 characters, so the two
jobs collide in the same timestamp second. -/
theorem basename_collision :
    List.replicate 252 'a' ≠ List.replicate 253 'a' ∧
    mkBaseName (List.replicate 252 'a') 0 = mkBaseName (List.replicate 253 'a') 0 := by
  constructor
  · intro h
    have hl := congrArg List.length h
    rw [List.length_replicate, List.length_replicate] at hl
    exact absurd hl (by omega)
  · unfold mkBaseName
    rw [show (toString (0 : Int)).data = ['0'] from rfl]
    rw [show ("job-".data ++ List.replicate 252 'a' ++ "-".data ++ ['0']).take 255 =
      "job-".data ++ List.replicate 251 'a' from by decide]
    rw [show ("job-".data ++ List.replicate 253 'a' ++ "-".data ++ ['0']).take 255 =
      "job-".data ++ List.replicate 251 'a' from by decide]

/-- C9 amended: two jobs with distinct job identifiers in the same timestamp
second get distinct base names, provided each formatted name
`job-<job_id>-<timestamp>` fits the 256-byte buffer (at most 255
characters); without that bound `snprintf` truncation can collide them. -/
theorem basename_distinct (id1 id2 : List Char) (ts : Int)
    (h1 : ("job-".data ++ id1 ++ "-".data ++ (toString ts).data).length ≤ 255)
    (h2 : ("job-".data ++ id2 ++ "-".data ++ (toString ts).data).length ≤ 255)
    (hne : id1 ≠ id2) : mkBaseName id1 ts ≠ mkBaseName id2 ts := by
  intro h
  unfold mkBaseName at h
  rw [List.take_of_length_le h1, List.take_of_length_le h2] at h
  have h3 := List.append_cancel_right h
  have h4 := List.append_cancel_right h3
  exact hne (List.append_cancel_left h4)

/-- C9 amended witness: job ids "1" and "2" at timestamp 0. -/
theorem basename_distinct_witness :
    ("job-".data ++ ['1'] ++ "-".data ++ (toString (0 : Int)).data).length ≤ 255 ∧
    mkBaseName ['1'] 0 ≠ mkBaseName ['2'] 0 :=
  ⟨by decide, basename_distinct ['1'] ['2'] 0 (by decide) (by decide) (by decide)⟩

/-!
## Runs of the driver
-/

/-- C7: when the requesting user does not resolve to an OS identity
(`getpwnam` returns no entry), the job reports the failure sentinel and no
queue artifact ever exists: every snapshot of the run agrees with the
initial filesystem on every path other than the scratch temp file, so
neither a document nor a sidecar is ever created in the queue. -/
theorem unresolved_user_no_artifacts (jobId user title : String)
    (file : Option String) (o : Orc) (fs0 : FS) (suf : String)
    (hmk : o.mkstempSuffix = some suf) (hpw : o.getpw = none) :
    (runJob jobId user title file o fs0).exit = CUPS_BACKEND_FAILED ∧
    ∀ p : String, p ≠ tmpPathOf o suf →
      untouched p (fs0 p) (runJob jobId user title file o fs0).trace = true := by
  rw [runJob.eq_def, hmk]
  simp only
  cases hof : inputOpenFails file o with
  | true =>
      simp only [if_pos rfl, Bool.true_eq_false]
      refine ⟨by trivial, ?_⟩
      intro p hp
      simp [untouched, upd, hp]
  | false =>
      simp only [Bool.false_eq_true, if_false]
      cases hpr : (pump o.readChunks o.wsched).2 with
      | none =>
          simp only [hpr]
          refine ⟨by trivial, ?_⟩
          intro p hp
          simp [untouched, upd, hp]
      | some rest =>
          simp only [hpr]
          cases hrd : o.readOk with
          | false =>
              simp only [Bool.false_eq_true, if_false]
              refine ⟨by trivial, ?_⟩
              intro p hp
              simp [untouched, upd, hp]
          | true =>
              simp only [if_pos rfl, hpw]
              refine ⟨by trivial, ?_⟩
              intro p hp
              simp [untouched, upd, hp]

/-- C7 witness: a resolvable path name stays untouched in a failing run with
an unknown user. -/
theorem unresolved_user_no_artifacts_witness :
    (runJob "1" "ghost" "t" none
      { baseOrc with getpw := none } emptyFS).exit = CUPS_BACKEND_FAILED ∧
    untouched "/Users/Shared/OneNoteHelper/Incoming/job-1-0.pdf"
      (emptyFS "/Users/Shared/OneNoteHelper/Incoming/job-1-0.pdf")
      (runJob "1" "ghost" "t" none { baseOrc with getpw := none } emptyFS).trace = true := by
  have h := unresolved_user_no_artifacts "1" "ghost" "t" none
    { baseOrc with getpw := none } emptyFS "AB" rfl rfl
  exact ⟨h.1, h.2 "/Users/Shared/OneNoteHelper/Incoming/job-1-0.pdf" (by decide)⟩

theorem finishJob_exit_ok (dd dj user jobId title : String) (o : Orc)
    (tr : List FS) (fs : FS) (hf : o.fopenJsonOk = true) :
    (finishJob dd dj user jobId title o tr fs).exit = CUPS_BACKEND_OK := by
  simp [finishJob, hf]

/-- C8: once identity resolution has succeeded and the document is staged,
the job reports the success sentinel whatever the outcome of the
ownership-change operations: `chownDocOk` and `chownJsonOk` are completely
unconstrained here (and permission-change results are discarded by the code
outright), yet the exit status is success. -/
theorem chown_failure_nonfatal (jobId user title : String) (file : Option String)
    (o : Orc) (fs0 : FS) (suf : String) (out : List Nat) (rest : List (Option Nat))
    (uidgid : Nat × Nat)
    (hmk : o.mkstempSuffix = some suf)
    (hopen : inputOpenFails file o = false)
    (hpump : pump o.readChunks o.wsched = (out, some rest))
    (hread : o.readOk = true)
    (hpw : o.getpw = some uidgid)
    (hdirs : o.ensureDirsOk = true)
    (hstage : o.renameOk = true ∨
      (copy_file (upd (upd fs0 (tmpPathOf o suf) []) (tmpPathOf o suf) out)
        (tmpPathOf o suf) (destDocOf jobId o (sniffExt (some out))) o.copyO).2 = true)
    (hfopen : o.fopenJsonOk = true) :
    (runJob jobId user title file o fs0).exit = CUPS_BACKEND_OK := by
  rw [runJob.eq_def, hmk]
  simp only [hopen, Bool.false_eq_true, if_false, hpump, hread, hpw, hdirs,
    upd_same, eq_self_iff_true, if_true]
  rcases hstage with hren | hcop
  · simp only [hren, eq_self_iff_true, if_true]
    exact finishJob_exit_ok _ _ _ _ _ _ _ _ hfopen
  · cases hren : o.renameOk with
    | true =>
        simp only [eq_self_iff_true, if_true]
        exact finishJob_exit_ok _ _ _ _ _ _ _ _ hfopen
    | false =>
        simp only [Bool.false_eq_true, if_false, hcop, eq_self_iff_true, if_true]
        exact finishJob_exit_ok _ _ _ _ _ _ _ _ hfopen

/-- C8 witness: both chown operations fail, the job still succeeds. -/
theorem chown_failure_nonfatal_witness :
    (runJob "1" "alice" "t" none
      { baseOrc with chownDocOk := false, chownJsonOk := false } emptyFS).exit =
      CUPS_BACKEND_OK := by
  refine chown_failure_nonfatal "1" "alice" "t" none
    { baseOrc with chownDocOk := false, chownJsonOk := false } emptyFS "AB"
    [37, 80, 68, 70, 45] [] (501, 20) rfl rfl (by decide) rfl rfl rfl
    (Or.inl rfl) rfl

/-- The oracle of the C1 counterexample: `rename` fails; the fallback copy
opens (creates, truncates) the destination, the first `write` accepts one
byte and the second fails. -/
def cexOrc : Orc :=
  ⟨none, some "AB", true, [[37, 80]], true, [some 8192], some (501, 20), true,
    0, false, ⟨true, none, [some 1, none]⟩, true, true, true, true⟩

/-- C1 counterexample: when the rename fails and the fallback copy fails
mid-transfer, the operation reports failure but a partially written
destination document file EXISTS in the queue directory — the claim's
"for every source and destination a failed move-or-copy leaves the
destination absent" is false on this code, because `copy_file` opens the
destination with `O_CREAT|O_TRUNC` before transferring. -/
theorem staging_failure_leaves_partial_destination :
    (runJob "1" "u" "t" none cexOrc emptyFS).exit = CUPS_BACKEND_FAILED ∧
    (runJob "1" "u" "t" none cexOrc emptyFS).fs
      "/Users/Shared/OneNoteHelper/Incoming/job-1-0.pdf" = some [37] := by
  exact ⟨rfl, rfl⟩

/-- C1 amended: if both the rename and the fallback copy fail, the operation
reports failure; and in the cases where the copy failed before the
destination was even opened (`openDstOk = false`), no destination file
exists — the filesystem is unchanged outside the scratch temp file.  (When
the copy fails after opening the destination, a truncated destination file
may remain; see the counterexample.) -/
theorem staging_failure_reports_failure (jobId user title : String)
    (file : Option String) (o : Orc) (fs0 : FS) (suf : String) (out : List Nat)
    (rest : List (Option Nat)) (uidgid : Nat × Nat)
    (hmk : o.mkstempSuffix = some suf)
    (hopen : inputOpenFails file o = false)
    (hpump : pump o.readChunks o.wsched = (out, some rest))
    (hread : o.readOk = true)
    (hpw : o.getpw = some uidgid)
    (hdirs : o.ensureDirsOk = true)
    (hren : o.renameOk = false)
    (hcopy : (copy_file (upd (upd fs0 (tmpPathOf o suf) []) (tmpPathOf o suf) out)
      (tmpPathOf o suf) (destDocOf jobId o (sniffExt (some out))) o.copyO).2 = false) :
    (runJob jobId user title file o fs0).exit = CUPS_BACKEND_FAILED ∧
    (o.copyO.openDstOk = false →
      ∀ p : String, p ≠ tmpPathOf o suf →
        (runJob jobId user title file o fs0).fs p = fs0 p) := by
  rw [runJob.eq_def, hmk]
  simp only [hopen, Bool.false_eq_true, if_false, hpump, hread, hpw, hdirs,
    upd_same, hren, hcopy, eq_self_iff_true, if_true]
  refine ⟨by trivial, ?_⟩
  intro hdst p hp
  have hcv : copy_file (upd (upd fs0 (tmpPathOf o suf) []) (tmpPathOf o suf) out)
      (tmpPathOf o suf) (destDocOf jobId o (sniffExt (some out))) o.copyO =
      (upd (upd fs0 (tmpPathOf o suf) []) (tmpPathOf o suf) out, false) := by
    rw [copy_file.eq_def, upd_same, hdst]
    simp
  simp only [hcv]
  rw [upd_ne _ _ _ _ hp, upd_ne _ _ _ _ hp]

/-- C1 amended witness: rename fails and the fallback copy cannot open the
destination; the run fails and the queue path stays absent. -/
def cexOrcNoDst : Orc :=
  ⟨none, some "AB", true, [[37, 80]], true, [some 8192], some (501, 20), true,
    0, false, ⟨false, none, []⟩, true, true, true, true⟩

theorem staging_failure_reports_failure_witness :
    (runJob "1" "u" "t" none cexOrcNoDst emptyFS).exit = CUPS_BACKEND_FAILED ∧
    (runJob "1" "u" "t" none cexOrcNoDst emptyFS).fs
      "/Users/Shared/OneNoteHelper/Incoming/job-1-0.pdf" =
      emptyFS "/Users/Shared/OneNoteHelper/Incoming/job-1-0.pdf" := by
  have h := staging_failure_reports_failure "1" "u" "t" none cexOrcNoDst emptyFS
    "AB" [37, 80] [] (501, 20) rfl rfl rfl rfl rfl rfl rfl rfl
  exact ⟨h.1, h.2 rfl "/Users/Shared/OneNoteHelper/Incoming/job-1-0.pdf" (by decide)⟩

/-- C10: the sidecar written on the success path is exactly
`sidecarText destDoc (escaped title) user jobId` — the escaping loop is
applied only to the title argument; the document path, user and job
identifier are spliced in verbatim (each occurs byte-for-byte as an infix of
the sidecar), and for a user string containing a quote character the sidecar
contains that quote unescaped (no backslash before it). -/
theorem sidecar_fields_verbatim (jobId user title : String) (file : Option String)
    (o : Orc) (fs0 : FS) (suf : String) (out : List Nat) (rest : List (Option Nat))
    (uidgid : Nat × Nat)
    (hmk : o.mkstempSuffix = some suf)
    (hopen : inputOpenFails file o = false)
    (hpump : pump o.readChunks o.wsched = (out, some rest))
    (hread : o.readOk = true)
    (hpw : o.getpw = some uidgid)
    (hdirs : o.ensureDirsOk = true)
    (hren : o.renameOk = true)
    (hfopen : o.fopenJsonOk = true) :
    (runJob jobId user title file o fs0).fs (destJsonOf jobId o) =
      some (strBytes (sidecarText (destDocOf jobId o (sniffExt (some out)))
        (String.mk (escT title.data)) user jobId)) ∧
    user.data <:+: (sidecarText (destDocOf jobId o (sniffExt (some out)))
      (String.mk (escT title.data)) user jobId).data ∧
    jobId.data <:+: (sidecarText (destDocOf jobId o (sniffExt (some out)))
      (String.mk (escT title.data)) user jobId).data ∧
    (destDocOf jobId o (sniffExt (some out))).data <:+:
      (sidecarText (destDocOf jobId o (sniffExt (some out)))
        (String.mk (escT title.data)) user jobId).data ∧
    ('x' :: '\"' :: 'y' :: []) <:+: (sidecarText "d" "t" "x\"y" "1").data ∧
    ¬ (('x' :: '\\' :: '\"' :: 'y' :: []) <:+: (sidecarText "d" "t" "x\"y" "1").data) := by
  refine ⟨?_, ?_, ?_, ?_, by decide, by decide⟩
  · rw [runJob.eq_def, hmk]
    simp only [hopen, Bool.false_eq_true, if_false, hpump, hread, hpw, hdirs,
      upd_same, hren, eq_self_iff_true, if_true]
    simp only [finishJob, hfopen, eq_self_iff_true, if_true]
    exact upd_same _ _ _
  · refine ⟨("\x7b\n  \"file\": \"" ++ destDocOf jobId o (sniffExt (some out)) ++
      "\",\n  \"title\": \"" ++ String.mk (escT title.data) ++ "\",\n  \"user\": \"").data,
      ("\",\n  \"job\": \"" ++ jobId ++ "\"\n\x7d\n").data, ?_⟩
    simp [sidecarText, String.data_append, List.append_assoc]
  · refine ⟨("\x7b\n  \"file\": \"" ++ destDocOf jobId o (sniffExt (some out)) ++
      "\",\n  \"title\": \"" ++ String.mk (escT title.data) ++ "\",\n  \"user\": \"" ++
      user ++ "\",\n  \"job\": \"").data, ("\"\n\x7d\n").data, ?_⟩
    simp [sidecarText, String.data_append, List.append_assoc]
  · refine ⟨("\x7b\n  \"file\": \"").data,
      ("\",\n  \"title\": \"" ++ String.mk (escT title.data) ++ "\",\n  \"user\": \"" ++
        user ++ "\",\n  \"job\": \"" ++ jobId ++ "\"\n\x7d\n").data, ?_⟩
    simp [sidecarText, String.data_append, List.append_assoc]

/-!
## C5: at no point does a sidecar exist whose document is absent
-/

theorem sidecarAfterDoc_nil (dj dd : String) (fs0 : FS) :
    sidecarAfterDoc dj dd fs0 [] = true := rfl

theorem sidecarAfterDoc_cons (dj dd : String) (fs0 s : FS) (tr : List FS)
    (h1 : s dj = fs0 dj ∨ (s dd).isSome = true)
    (h2 : sidecarAfterDoc dj dd fs0 tr = true) :
    sidecarAfterDoc dj dd fs0 (s :: tr) = true := by
  unfold sidecarAfterDoc at h2 ⊢
  rw [List.all_cons, h2, Bool.and_true]
  rcases h1 with h | h
  · rw [h]
    simp
  · rw [h]
    simp

theorem upd_isSome_preserve (fs : FS) (p q : String) (v : List Nat)
    (h : (fs q).isSome = true) : (upd fs p v q).isSome = true := by
  by_cases hq : q = p
  · subst hq
    rw [upd_same]
    rfl
  · rw [upd_ne _ _ _ _ hq]
    exact h

theorem copy_file_fs_cases (fs : FS) (src dst : String) (o : CopyOr) :
    (copy_file fs src dst o).1 = fs ∨
    ∃ v, (copy_file fs src dst o).1 = upd fs dst v := by
  rw [copy_file.eq_def]
  cases fs src with
  | none => exact Or.inl rfl
  | some data =>
      cases ho : o.openDstOk with
      | false => simp
      | true =>
          cases o.readErrAfter with
          | none => exact Or.inr ⟨_, rfl⟩
          | some k => exact Or.inr ⟨_, rfl⟩

theorem copy_file_success_dst (fs : FS) (src dst : String) (o : CopyOr)
    (h : (copy_file fs src dst o).2 = true) :
    ∃ v, (copy_file fs src dst o).1 = upd fs dst v := by
  rw [copy_file.eq_def] at h ⊢
  cases hs : fs src with
  | none => simp [hs] at h
  | some data =>
      cases ho : o.openDstOk with
      | false => simp [hs, ho] at h
      | true =>
          cases hre : o.readErrAfter with
          | none =>
              simp only [ho, hre, if_true, eq_self_iff_true]
              exact ⟨_, rfl⟩
          | some k => simp [hs, ho, hre] at h

/-- C5: in every execution, every filesystem snapshot in which the sidecar
path differs from its initial state (i.e. the run has created/written the
sidecar) also has the document file present: the sidecar descriptor is
created only after the document is fully in place, so at no point does a
sidecar created by the run exist without its document.  The two distinctness
hypotheses record that the scratch temp file does not alias a queue path
(scratch and queue are different directories). -/
theorem sidecar_never_orphaned (jobId user title : String) (file : Option String)
    (o : Orc) (fs0 : FS) (suf : String)
    (hmk : o.mkstempSuffix = some suf)
    (htj : tmpPathOf o suf ≠ destJsonOf jobId o)
    (htd1 : tmpPathOf o suf ≠ destDocOf jobId o "ps")
    (htd2 : tmpPathOf o suf ≠ destDocOf jobId o "pdf") :
    sidecarAfterDoc (destJsonOf jobId o)
      (destDocOf jobId o (sniffExt (some (pump o.readChunks o.wsched).1))) fs0
      (runJob jobId user title file o fs0).trace = true := by
  have htd : tmpPathOf o suf ≠
      destDocOf jobId o (sniffExt (some (pump o.readChunks o.wsched).1)) := by
    rcases sniffExt_ps_or_pdf (some (pump o.readChunks o.wsched).1) with h | h <;>
      rw [h] <;> assumption
  have e1 : upd fs0 (tmpPathOf o suf) [] (destJsonOf jobId o) =
      fs0 (destJsonOf jobId o) := upd_ne _ _ _ _ (Ne.symm htj)
  have e2 : upd (upd fs0 (tmpPathOf o suf) []) (tmpPathOf o suf)
      (pump o.readChunks o.wsched).1 (destJsonOf jobId o) =
      fs0 (destJsonOf jobId o) := by
    rw [upd_ne _ _ _ _ (Ne.symm htj), upd_ne _ _ _ _ (Ne.symm htj)]
  rw [runJob.eq_def, hmk]
  simp only [upd_same]
  cases hof : inputOpenFails file o with
  | true =>
      exact sidecarAfterDoc_cons _ _ _ _ _ (Or.inl rfl)
        (sidecarAfterDoc_cons _ _ _ _ _ (Or.inl e1) (sidecarAfterDoc_nil _ _ _))
  | false =>
      cases hpr : (pump o.readChunks o.wsched).2 with
      | none =>
          exact sidecarAfterDoc_cons _ _ _ _ _ (Or.inl rfl)
            (sidecarAfterDoc_cons _ _ _ _ _ (Or.inl e1)
              (sidecarAfterDoc_cons _ _ _ _ _ (Or.inl e2) (sidecarAfterDoc_nil _ _ _)))
      | some rest =>
          cases hrd : o.readOk with
          | false =>
              exact sidecarAfterDoc_cons _ _ _ _ _ (Or.inl rfl)
                (sidecarAfterDoc_cons _ _ _ _ _ (Or.inl e1)
                  (sidecarAfterDoc_cons _ _ _ _ _ (Or.inl e2) (sidecarAfterDoc_nil _ _ _)))
          | true =>
              cases hpw : o.getpw with
              | none =>
                  exact sidecarAfterDoc_cons _ _ _ _ _ (Or.inl rfl)
                    (sidecarAfterDoc_cons _ _ _ _ _ (Or.inl e1)
                      (sidecarAfterDoc_cons _ _ _ _ _ (Or.inl e2) (sidecarAfterDoc_nil _ _ _)))
              | some uidgid =>
                  cases hdirs : o.ensureDirsOk with
                  | false =>
                      exact sidecarAfterDoc_cons _ _ _ _ _ (Or.inl rfl)
                        (sidecarAfterDoc_cons _ _ _ _ _ (Or.inl e1)
                          (sidecarAfterDoc_cons _ _ _ _ _ (Or.inl e2)
                            (sidecarAfterDoc_nil _ _ _)))
                  | true =>
                      cases hren : o.renameOk with
                      | true =>
                          have f3 : (upd (del (upd (upd fs0 (tmpPathOf o suf) [])
                              (tmpPathOf o suf) (pump o.readChunks o.wsched).1)
                              (tmpPathOf o suf))
                              (destDocOf jobId o (sniffExt (some (pump o.readChunks o.wsched).1)))
                              (pump o.readChunks o.wsched).1
                              (destDocOf jobId o (sniffExt (some (pump o.readChunks o.wsched).1)))).isSome
                              = true := by rw [upd_same]; rfl
                          cases hfo : o.fopenJsonOk with
                          | true =>
                              simp only [finishJob, hfo, eq_self_iff_true, if_true]
                              exact sidecarAfterDoc_cons _ _ _ _ _ (Or.inl rfl)
                                (sidecarAfterDoc_cons _ _ _ _ _ (Or.inl e1)
                                  (sidecarAfterDoc_cons _ _ _ _ _ (Or.inl e2)
                                    (sidecarAfterDoc_cons _ _ _ _ _ (Or.inr f3)
                                      (sidecarAfterDoc_cons _ _ _ _ _
                                        (Or.inr (upd_isSome_preserve _ _ _ _ f3))
                                        (sidecarAfterDoc_cons _ _ _ _ _
                                          (Or.inr (upd_isSome_preserve _ _ _ _
                                            (upd_isSome_preserve _ _ _ _ f3)))
                                          (sidecarAfterDoc_nil _ _ _))))))
                          | false =>
                              simp only [finishJob, hfo, Bool.false_eq_true, if_false]
                              exact sidecarAfterDoc_cons _ _ _ _ _ (Or.inl rfl)
                                (sidecarAfterDoc_cons _ _ _ _ _ (Or.inl e1)
                                  (sidecarAfterDoc_cons _ _ _ _ _ (Or.inl e2)
                                    (sidecarAfterDoc_cons _ _ _ _ _ (Or.inr f3)
                                      (sidecarAfterDoc_nil _ _ _))))
                      | false =>
                          cases hcr : (copy_file (upd (upd fs0 (tmpPathOf o suf) [])
                              (tmpPathOf o suf) (pump o.readChunks o.wsched).1)
                              (tmpPathOf o suf)
                              (destDocOf jobId o (sniffExt (some (pump o.readChunks o.wsched).1)))
                              o.copyO).2 with
                          | false =>
                              have e3 : (copy_file (upd (upd fs0 (tmpPathOf o suf) [])
                                  (tmpPathOf o suf) (pump o.readChunks o.wsched).1)
                                  (tmpPathOf o suf)
                                  (destDocOf jobId o (sniffExt (some (pump o.readChunks o.wsched).1)))
                                  o.copyO).1 (destJsonOf jobId o) = fs0 (destJsonOf jobId o) ∨
                                  ((copy_file (upd (upd fs0 (tmpPathOf o suf) [])
                                  (tmpPathOf o suf) (pump o.readChunks o.wsched).1)
                                  (tmpPathOf o suf)
                                  (destDocOf jobId o (sniffExt (some (pump o.readChunks o.wsched).1)))
                                  o.copyO).1 (destDocOf jobId o
                                    (sniffExt (some (pump o.readChunks o.wsched).1)))).isSome = true := by
                                rcases copy_file_fs_cases (upd (upd fs0 (tmpPathOf o suf) [])
                                    (tmpPathOf o suf) (pump o.readChunks o.wsched).1)
                                    (tmpPathOf o suf)
                                    (destDocOf jobId o (sniffExt (some (pump o.readChunks o.wsched).1)))
                                    o.copyO with hc | ⟨v, hc⟩
                                · left
                                  rw [hc]
                                  exact e2
                                · right
                                  rw [hc, upd_same]
                                  rfl
                              exact sidecarAfterDoc_cons _ _ _ _ _ (Or.inl rfl)
                                (sidecarAfterDoc_cons _ _ _ _ _ (Or.inl e1)
                                  (sidecarAfterDoc_cons _ _ _ _ _ (Or.inl e2)
                                    (sidecarAfterDoc_cons _ _ _ _ _ e3
                                      (sidecarAfterDoc_nil _ _ _))))
                          | true =>
                              obtain ⟨v, hv⟩ := copy_file_success_dst
                                (upd (upd fs0 (tmpPathOf o suf) [])
                                  (tmpPathOf o suf) (pump o.readChunks o.wsched).1)
                                (tmpPathOf o suf)
                                (destDocOf jobId o (sniffExt (some (pump o.readChunks o.wsched).1)))
                                o.copyO hcr
                              have e3 : ((copy_file (upd (upd fs0 (tmpPathOf o suf) [])
                                  (tmpPathOf o suf) (pump o.readChunks o.wsched).1)
                                  (tmpPathOf o suf)
                                  (destDocOf jobId o (sniffExt (some (pump o.readChunks o.wsched).1)))
                                  o.copyO).1 (destDocOf jobId o
                                    (sniffExt (some (pump o.readChunks o.wsched).1)))).isSome = true := by
                                rw [hv, upd_same]
                                rfl
                              cases hul : o.unlinkOk with
                              | true =>
                                  have e4 : (del (copy_file (upd (upd fs0 (tmpPathOf o suf) [])
                                      (tmpPathOf o suf) (pump o.readChunks o.wsched).1)
                                      (tmpPathOf o suf)
                                      (destDocOf jobId o (sniffExt (some (pump o.readChunks o.wsched).1)))
                                      o.copyO).1 (tmpPathOf o suf)
                                      (destDocOf jobId o
                                        (sniffExt (some (pump o.readChunks o.wsched).1)))).isSome = true := by
                                    rw [del_ne _ _ _ (Ne.symm htd)]
                                    exact e3
                                  cases hfo : o.fopenJsonOk with
                                  | true =>
                                      simp only [finishJob, hfo, eq_self_iff_true, if_true]
                                      exact sidecarAfterDoc_cons _ _ _ _ _ (Or.inl rfl)
                                        (sidecarAfterDoc_cons _ _ _ _ _ (Or.inl e1)
                                          (sidecarAfterDoc_cons _ _ _ _ _ (Or.inl e2)
                                            (sidecarAfterDoc_cons _ _ _ _ _ (Or.inr e3)
                                              (sidecarAfterDoc_cons _ _ _ _ _ (Or.inr e4)
                                                (sidecarAfterDoc_cons _ _ _ _ _
                                                  (Or.inr (upd_isSome_preserve _ _ _ _ e4))
                                                  (sidecarAfterDoc_cons _ _ _ _ _
                                                    (Or.inr (upd_isSome_preserve _ _ _ _
                                                      (upd_isSome_preserve _ _ _ _ e4)))
                                                    (sidecarAfterDoc_nil _ _ _)))))))
                                  | false =>
                                      simp only [finishJob, hfo, Bool.false_eq_true, if_false]
                                      exact sidecarAfterDoc_cons _ _ _ _ _ (Or.inl rfl)
                                        (sidecarAfterDoc_cons _ _ _ _ _ (Or.inl e1)
                                          (sidecarAfterDoc_cons _ _ _ _ _ (Or.inl e2)
                                            (sidecarAfterDoc_cons _ _ _ _ _ (Or.inr e3)
                                              (sidecarAfterDoc_cons _ _ _ _ _ (Or.inr e4)
                                                (sidecarAfterDoc_nil _ _ _)))))
                              | false =>
                                  cases hfo : o.fopenJsonOk with
                                  | true =>
                                      simp only [finishJob, hfo, eq_self_iff_true, if_true]
                                      exact sidecarAfterDoc_cons _ _ _ _ _ (Or.inl rfl)
                                        (sidecarAfterDoc_cons _ _ _ _ _ (Or.inl e1)
                                          (sidecarAfterDoc_cons _ _ _ _ _ (Or.inl e2)
                                            (sidecarAfterDoc_cons _ _ _ _ _ (Or.inr e3)
                                              (sidecarAfterDoc_cons _ _ _ _ _ (Or.inr e3)
                                                (sidecarAfterDoc_cons _ _ _ _ _
                                                  (Or.inr (upd_isSome_preserve _ _ _ _ e3))
                                                  (sidecarAfterDoc_cons _ _ _ _ _
                                                    (Or.inr (upd_isSome_preserve _ _ _ _
                                                      (upd_isSome_preserve _ _ _ _ e3)))
                                                    (sidecarAfterDoc_nil _ _ _)))))))
                                  | false =>
                                      simp only [finishJob, hfo, Bool.false_eq_true, if_false]
                                      exact sidecarAfterDoc_cons _ _ _ _ _ (Or.inl rfl)
                                        (sidecarAfterDoc_cons _ _ _ _ _ (Or.inl e1)
                                          (sidecarAfterDoc_cons _ _ _ _ _ (Or.inl e2)
                                            (sidecarAfterDoc_cons _ _ _ _ _ (Or.inr e3)
                                              (sidecarAfterDoc_cons _ _ _ _ _ (Or.inr e3)
                                                (sidecarAfterDoc_nil _ _ _)))))

/-- C5 witness: a concrete all-success run, checked against the trace
predicate. -/
theorem sidecar_never_orphaned_witness :
    sidecarAfterDoc (destJsonOf "1" baseOrc)
      (destDocOf "1" baseOrc
        (sniffExt (some (pump baseOrc.readChunks baseOrc.wsched).1))) emptyFS
      (runJob "1" "u" "t" none baseOrc emptyFS).trace = true :=
  sidecar_never_orphaned "1" "u" "t" none baseOrc emptyFS "AB" rfl
    (by decide) (by decide) (by decide)

/-- C10 witness: the user string here contains a quote; the sidecar contains
it verbatim. -/
theorem sidecar_fields_verbatim_witness :
    (runJob "7" "x\"y" "t" none baseOrc emptyFS).fs (destJsonOf "7" baseOrc) =
      some (strBytes (sidecarText
        (destDocOf "7" baseOrc (sniffExt (some [37, 80, 68, 70, 45])))
        (String.mk (escT "t".data)) "x\"y" "7")) ∧
    ("x\"y").data <:+: (sidecarText
      (destDocOf "7" baseOrc (sniffExt (some [37, 80, 68, 70, 45])))
      (String.mk (escT "t".data)) "x\"y" "7").data := by
  have h := sidecar_fields_verbatim "7" "x\"y" "t" none baseOrc emptyFS "AB"
    [37, 80, 68, 70, 45] [] (501, 20) rfl rfl rfl rfl rfl rfl rfl rfl
  exact ⟨h.1, h.2.1⟩
